import Mathlib

/-!
Verification of the BeeWork full pipeline (`shared/full_pipeline.py`):
a shallow embedding of the task-scheduling core — topic slugs, the
timeout guard, the research worker loop, the review worker loop with its
file-lock registry and deferred list, and the credential gate of
`run_pipeline` — together with theorems settling the specification's
claims about it.
-/

namespace BeeWork

/-! ### Data model -/

/-- A research task descriptor as enqueued on the research queue:
`{topic, prompt, file_path, websites, key_index, research_agent_id}`.
Only the fields the scheduling core reads are modelled. -/
structure Task where
  topic : String
  file_path : String
  research_agent_id : String
  key_index : Nat
deriving DecidableEq, Repr

/-- A review item as pushed by `research_worker` onto the review queue:
`{pr, file_path, research_agent_id, key_index}`. -/
structure ReviewItem where
  pr : Nat
  file_path : String
  research_agent_id : String
  key_index : Nat
deriving DecidableEq, Repr

/-- Telemetry events emitted by the workers, with the payload shapes the
code actually sends (`researcher_done` carries either a `pr` field or an
`error` field, likewise `reviewer_done`). -/
inductive Event where
  | researcherStarted (slug : String)
  | researcherDone (slug : String) (pr : Option Nat)
  | researcherDoneError (slug : String) (e : String)
  | prCreated (pr : Nat) (slug : String)
  | reviewerStarted (pr : Nat) (slug : String)
  | reviewerDone (pr : Nat) (slug : String)
  | reviewerDoneError (pr : Nat) (e : String)
deriving DecidableEq, Repr

/-! ### Topic slugs (`_topic_slug`, line 40) -/

/-- Characters the regex class `[a-z0-9]` accepts. -/
def isSlugAlnum (c : Char) : Bool :=
  (('a' ≤ c) && (c ≤ 'z')) || (('0' ≤ c) && (c ≤ '9'))

/-- The regex substitution `re.sub(r"[^a-z0-9]+", "-", ·)` on a character list: each maximal run
of characters outside `[a-z0-9]` becomes a single `'-'`. The boolean
records whether we are inside such a run already. -/
def squashRuns : Bool → List Char → List Char
  | _, [] => []
  | inRun, c :: cs =>
    if isSlugAlnum c then c :: squashRuns false cs
    else if inRun then squashRuns inRun cs
    else '-' :: squashRuns true cs

/-- Python `str.strip(c)`: drop every leading and trailing `c`. -/
def stripChar (c : Char) (l : List Char) : List Char :=
  (((l.dropWhile (fun d => d == c)).reverse.dropWhile (fun d => d == c))).reverse

/-- The function `_topic_slug(topic)`, that is
`re.sub(r"[^a-z0-9]+", "-", topic.lower()).strip("-")`. -/
def _topic_slug (topic : String) : String :=
  String.mk (stripChar '-' (squashRuns false (topic.data.map Char.toLower)))

/-- In `run_pipeline` lines 262-263, every task gets
`task["research_agent_id"] = _topic_slug(task.get("topic", "unknown"))`;
there is no collision disambiguation. -/
def assignAgentIds (topics : List (Option String)) : List String :=
  topics.map (fun t? => _topic_slug (t?.getD "unknown"))

/-! ### Timeout guard (`_run_with_timeout`, lines 44-61) -/

/-- The constant `TASK_TIMEOUT = 15 * 60` seconds. -/
def TASK_TIMEOUT : Nat := 15 * 60

/-- Behaviour of the wrapped call `fn`: it either returns a Python value
(where `none` is Python `None`) or raises. -/
inductive FnResult (β : Type) where
  | value (v : Option β)
  | raises (e : String)
deriving DecidableEq, Repr

/-- The guard `_run_with_timeout(fn, label, timeout)` where `fn` runs for
`duration` seconds and then produces `res`. The caller joins for at most
`timeout`; if the worker thread is still alive (`timeout < duration`)
the caller gets the sentinel `None` back after exactly `timeout` seconds
of blocking and the late result is discarded; otherwise the caller waits
`duration` seconds and the stored error is re-raised or the stored value
returned. The first component is the caller's elapsed blocking time, the
second the returned value (`Except.error` = the re-raised exception). -/
def _run_with_timeout (β : Type) (duration : Nat) (res : FnResult β) (timeout : Nat) :
    Nat × Except String (Option β) :=
  if timeout < duration then (timeout, Except.ok none)
  else
    (duration,
      match res with
      | FnResult.raises e => Except.error e
      | FnResult.value v => Except.ok v)

/-! ### Research worker (`research_worker`, lines 68-109) -/

/-- One iteration of the `research_worker` loop body for task `t`, when
the research call runs for `duration` and produces `res`: the emitted
telemetry events and the review items pushed onto the review queue.
The `try` block wraps the timeout-guarded call, so a re-raised exception
is caught by the `except` at line 106 and only logged. -/
def researchStep (t : Task) (duration : Nat) (res : FnResult Nat) :
    List ReviewItem × List Event :=
  match (_run_with_timeout Nat duration res TASK_TIMEOUT).2 with
  | Except.ok (some pr) =>
      ([{ pr := pr, file_path := t.file_path,
          research_agent_id := t.research_agent_id, key_index := t.key_index }],
       [Event.researcherStarted t.research_agent_id,
        Event.researcherDone t.research_agent_id (some pr),
        Event.prCreated pr t.research_agent_id])
  | Except.ok none =>
      ([], [Event.researcherStarted t.research_agent_id,
            Event.researcherDone t.research_agent_id none])
  | Except.error e =>
      ([], [Event.researcherStarted t.research_agent_id,
            Event.researcherDoneError t.research_agent_id e])

/-- The whole `research_worker` loop over the sequence of queue items it
receives (`none` is the end-of-work sentinel that breaks the loop);
`behav t` gives the duration and result of the research call for `t`.
Returns all review items enqueued and all events emitted. -/
def researchWorker (behav : Task → Nat × FnResult Nat) :
    List (Option Task) → List ReviewItem × List Event
  | [] => ([], [])
  | none :: _ => ([], [])
  | some t :: rest =>
      let s := researchStep t (behav t).1 (behav t).2
      let r := researchWorker behav rest
      (s.1 ++ r.1, s.2 ++ r.2)

/-- Holds exactly on `researcher_started` events. -/
def isResearcherStarted : Event → Bool
  | Event.researcherStarted _ => true
  | _ => false

/-! ### Review worker (`_take_unlocked` lines 116-129, `review_worker` lines 132-178) -/

/-- The helper `_take_unlocked(deferred, files_under_review, review_lock)`: scan the
deferred list; the first task whose `file_path` is not in the lock set is
taken (and its path added to the set), every other task is kept in order.
Returns (taken, remaining deferred list, updated lock set). -/
def _take_unlocked : List ReviewItem → Finset String →
    Option ReviewItem × List ReviewItem × Finset String
  | [], locked => (none, [], locked)
  | t :: rest, locked =>
    if t.file_path ∈ locked then
      ((_take_unlocked rest locked).1,
       t :: (_take_unlocked rest locked).2.1,
       (_take_unlocked rest locked).2.2)
    else (some t, rest, insert t.file_path locked)

/-- Outcome of one pass through the top of the `review_worker` loop:
exit the loop, go around again (`continue`), or run a review on a task
whose file lock was just acquired. -/
inductive ReviewStepResult where
  | exitLoop
  | continueLoop (deferred : List ReviewItem) (locked : Finset String) (q : List ReviewItem)
  | work (task : ReviewItem) (deferred : List ReviewItem) (locked : Finset String) (q : List ReviewItem)
deriving DecidableEq

/-- One pass through the top of the `review_worker` loop (lines 135-153):
try the deferred list first via `_take_unlocked`; if nothing was taken,
pull from the shared queue (`q = []` models `queue.Empty` after the poll
timeout, upon which the worker exits iff `done_event` is set and its
deferred list is empty); a freshly pulled task whose file is locked is
appended to the deferred list and the loop continues; otherwise its file
is added to the lock set and the review runs. -/
def reviewStep (deferred : List ReviewItem) (locked : Finset String)
    (q : List ReviewItem) (done : Bool) : ReviewStepResult :=
  match (_take_unlocked deferred locked).1 with
  | some t =>
      ReviewStepResult.work t (_take_unlocked deferred locked).2.1
        (_take_unlocked deferred locked).2.2 q
  | none =>
    match q with
    | [] =>
        if done && (_take_unlocked deferred locked).2.1.isEmpty then
          ReviewStepResult.exitLoop
        else
          ReviewStepResult.continueLoop (_take_unlocked deferred locked).2.1 locked []
    | t :: qrest =>
        if t.file_path ∈ locked then
          ReviewStepResult.continueLoop ((_take_unlocked deferred locked).2.1 ++ [t])
            locked qrest
        else
          ReviewStepResult.work t (_take_unlocked deferred locked).2.1
            (insert t.file_path locked) qrest

/-- The release `files_under_review.discard(path)` (line 178): remove if present,
no-op otherwise. -/
def fileDiscard (s : Finset String) (p : String) : Finset String := s.erase p

/-- The `try/except/finally` around the review call (lines 156-178) for
task `t` whose lock is held, when the review call runs for `duration`
with result `res`: on success or timeout the done event is logged, on a
re-raised exception the error event is logged, and on every one of these
exit paths the `finally` block performs exactly one `discard` of the
task's file path. Returns the lock set after the `finally` and the
emitted events. -/
def processReview (t : ReviewItem) (locked : Finset String)
    (duration : Nat) (res : FnResult Unit) : Finset String × List Event :=
  match (_run_with_timeout Unit duration res TASK_TIMEOUT).2 with
  | Except.ok _ =>
      (fileDiscard locked t.file_path,
       [Event.reviewerStarted t.pr t.research_agent_id,
        Event.reviewerDone t.pr t.research_agent_id])
  | Except.error e =>
      (fileDiscard locked t.file_path,
       [Event.reviewerStarted t.pr t.research_agent_id,
        Event.reviewerDoneError t.pr e])

/-- Successive rounds of the deferred-retry loop of one review worker in
the situation where every review it starts finishes and releases its
lock before the next round, so the ambient lock set is `L` again at each
`_take_unlocked` call (the lock on a deferred item's file has been
released). Returns the deferred items processed, in processing order. -/
def deferredRounds : Nat → List ReviewItem → Finset String → List ReviewItem
  | 0, _, _ => []
  | Nat.succ k, deferred, L =>
    match (_take_unlocked deferred L).1 with
    | some t => t :: deferredRounds k (_take_unlocked deferred L).2.1 L
    | none => []

/-! ### File-lock registry as a transition system (C1) -/

/-- Global lock-registry state for `n` review workers: the shared
`files_under_review` set and, for each worker, the file path whose lock
it currently holds (`none` = between reviews). A worker processes one
item at a time, so it holds at most one path. -/
structure LockState (n : Nat) where
  files_under_review : Finset String
  holding : Fin n → Option String

/-- Atomic transitions of the registry. Both lock sites in the code —
the queue-pull check at lines 149-153 and the deferred-take check at
lines 122-125 — run the membership test and the `add` inside one
`with review_lock:` critical section, so acquisition is a single atomic
test-and-set; the `finally` at lines 176-178 performs the release under
the same mutex. -/
inductive LockStep (n : Nat) : LockState n → LockState n → Prop where
  | acquire (s : LockState n) (w : Fin n) (p : String) :
      s.holding w = none → p ∉ s.files_under_review →
      LockStep n s ⟨insert p s.files_under_review, Function.update s.holding w (some p)⟩
  | deferFile (s : LockState n) (w : Fin n) (p : String) :
      s.holding w = none → p ∈ s.files_under_review →
      LockStep n s s
  | release (s : LockState n) (w : Fin n) (p : String) :
      s.holding w = some p →
      LockStep n s ⟨s.files_under_review.erase p, Function.update s.holding w none⟩

/-- The initial state built in `run_tasks` (lines 194-195): empty set,
no worker holding anything. -/
def initLockState (n : Nat) : LockState n := ⟨∅, fun _ => none⟩

/-- States reachable by any interleaving of worker transitions. -/
inductive LockReachable (n : Nat) : LockState n → Prop where
  | init : LockReachable n (initLockState n)
  | step (s t : LockState n) : LockReachable n s → LockStep n s t → LockReachable n t

/-- The file-lock invariant: a path is in `files_under_review` iff some
worker holds it, and no two distinct workers hold the same path. -/
def LockInv (n : Nat) (s : LockState n) : Prop :=
  (∀ p : String, p ∈ s.files_under_review ↔ ∃ w : Fin n, s.holding w = some p) ∧
  (∀ p : String, ∀ w w' : Fin n, s.holding w = some p → s.holding w' = some p → w = w')

/-! ### Credential gate (`run_pipeline`, lines 239-246) -/

/-- The list `REQUIRED_ENV_VARS` (lines 30-37). -/
def REQUIRED_ENV_VARS : List String :=
  ["GEMINI_API_KEY_0", "GITHUB_PAT", "ANTHROPIC_API_KEY",
   "PARALLEL_API_KEY", "BROWSER_USE_API_KEY", "LMNR_PROJECT_API_KEY"]

/-- Python truthiness of `os.environ.get(v)`: false for an unset
variable (`None`) and for a variable set to the empty string. -/
def envTruthy (env : String → Option String) (v : String) : Bool :=
  match env v with
  | none => false
  | some s => s != ""

/-- The list `missing = [v for v in REQUIRED_ENV_VARS if not os.environ.get(v)]`
(line 244). -/
def missingEnvVars (env : String → Option String) : List String :=
  REQUIRED_ENV_VARS.filter (fun v => !envTruthy env v)

/-- The external calls the pipeline would go on to perform after the
credential gate (orchestration, then the research and review phases);
telemetry is fire-and-forget and excluded. -/
inductive PipelineCall where
  | orchestrateCall
  | researchPhase
  | reviewPhase
deriving DecidableEq, Repr

/-- The credential gate of `run_pipeline` (lines 244-246): compute the
missing variables; if any, raise `EnvironmentError` with a message
listing all of them before any external call is made; otherwise proceed
to the external calls. -/
def run_pipeline_gate (env : String → Option String) : Except String (List PipelineCall) :=
  let missing := missingEnvVars env
  if missing.isEmpty then
    Except.ok [PipelineCall.orchestrateCall, PipelineCall.researchPhase, PipelineCall.reviewPhase]
  else
    Except.error ("Missing env vars: " ++ String.intercalate ", " missing)

/-- Holds exactly on `Except.error`. -/
def exceptIsError : Except ε α → Bool
  | Except.error _ => true
  | Except.ok _ => false

/-- An environment in which every required variable is set (present) but
`GEMINI_API_KEY_0` holds the empty string. -/
def envOneEmpty : String → Option String :=
  fun v => if v = "GEMINI_API_KEY_0" then some "" else some "filled"

/-! ### Resumable pipeline state store (modelled from the spec) -/

/-- Modelled from the spec: the repository source under `src/` contains
no Resumable Pipeline State Store (no durable state record, `load`/`save`
or stage tracking appears in `shared/full_pipeline.py` or elsewhere);
the spec describes it in §4.5. Statuses of a stage or per-task stage:
`status ∈ {pending, in_progress, completed, failed}`. -/
inductive StageStatus where
  | pending
  | in_progress
  | completed
  | failed
deriving DecidableEq, Repr

/-- Modelled from the spec: per-task entry of the durable run-state
record — the status of the task's research stage, the stored
pull-request handle as soon as it is known, and the status of the task's
review stage ("research succeeded, review pending" is
`research = completed, pr = some _, review = pending`). -/
structure TaskRecord where
  research : StageStatus
  pr : Option Nat
  review : StageStatus
deriving DecidableEq, Repr

/-- Modelled from the spec: "A stage-tracking helper wraps a unit of
work: if the stage is already `completed`, skip and return the cached
result; otherwise mark `in_progress`, persist, execute, mark `completed`
... and persist again." Returns the result delivered to the caller and
whether the unit of work was actually executed. -/
def trackStage (status : StageStatus) (cached fresh : α) : α × Bool :=
  if status = StageStatus.completed then (cached, false) else (fresh, true)

/-- External calls a resumed run performs for one task. -/
inductive ResumeAction where
  | researchCall (id : String)
  | reviewCall (id : String) (pr : Nat)
deriving DecidableEq, Repr

/-- Modelled from the spec: resuming one task from its durable record.
The research stage is wrapped by the stage tracker: if already
`completed` the cached stored handle is used without re-invoking
research, otherwise research runs and would produce `freshPr`. The
review stage likewise is skipped when `completed`; otherwise, if a
handle is available, review is invoked with it. Returns the external
calls performed and the updated record. -/
def resumeTask (id : String) (r : TaskRecord) (freshPr : Option Nat) :
    List ResumeAction × TaskRecord :=
  let research := trackStage r.research r.pr freshPr
  let researchActs := if research.2 then [ResumeAction.researchCall id] else []
  if r.review = StageStatus.completed then
    (researchActs, { research := StageStatus.completed, pr := research.1,
                     review := StageStatus.completed })
  else
    match research.1 with
    | some pr =>
        (researchActs ++ [ResumeAction.reviewCall id pr],
         { research := StageStatus.completed, pr := some pr,
           review := StageStatus.completed })
    | none =>
        (researchActs,
         { research := StageStatus.completed, pr := none, review := r.review })

/-! ### Lemmas about `_take_unlocked` -/

/-- When `_take_unlocked` takes nothing, the deferred list is left
exactly as it was. -/
theorem take_unlocked_none_rem (d : List ReviewItem) (L : Finset String)
    (h : (_take_unlocked d L).1 = none) : (_take_unlocked d L).2.1 = d := by
  induction d generalizing L with
  | nil => rfl
  | cons t rest ih =>
    by_cases hm : t.file_path ∈ L
    · simp only [_take_unlocked, if_pos hm] at h ⊢
      rw [ih L h]
    · simp only [_take_unlocked, if_neg hm] at h
      exact Option.noConfusion h

/-- If some deferred item's file is unlocked, `_take_unlocked` takes
something. -/
theorem take_unlocked_some_of_mem (x : ReviewItem) :
    ∀ (d : List ReviewItem) (L : Finset String), x ∈ d → x.file_path ∉ L →
      ∃ t, (_take_unlocked d L).1 = some t := by
  intro d
  induction d with
  | nil => intro L hx _; cases hx
  | cons t rest ih =>
    intro L hx hfree
    by_cases hm : t.file_path ∈ L
    · have hxt : x ≠ t := by
        intro h
        exact hfree (h ▸ hm)
      have hx' : x ∈ rest := by
        cases List.mem_cons.1 hx with
        | inl h => exact absurd h hxt
        | inr h => exact h
      obtain ⟨u, hu⟩ := ih L hx' hfree
      exact ⟨u, by simpa only [_take_unlocked, if_pos hm] using hu⟩
    · exact ⟨t, by simp only [_take_unlocked, if_neg hm]⟩

/-- Taking an item removes exactly one element from the deferred list. -/
theorem take_unlocked_some_length (t : ReviewItem) :
    ∀ (d : List ReviewItem) (L : Finset String), (_take_unlocked d L).1 = some t →
      d.length = (_take_unlocked d L).2.1.length + 1 := by
  intro d
  induction d with
  | nil => intro L h; exact Option.noConfusion h
  | cons u rest ih =>
    intro L h
    by_cases hm : u.file_path ∈ L
    · simp only [_take_unlocked, if_pos hm] at h ⊢
      simp only [List.length_cons, ih L h]
    · simp only [_take_unlocked, if_neg hm, List.length_cons]

/-- No deferred item is dropped: every item is either the one taken or
still on the remaining deferred list. -/
theorem take_unlocked_mem_rem (x t : ReviewItem) :
    ∀ (d : List ReviewItem) (L : Finset String), (_take_unlocked d L).1 = some t →
      x ∈ d → x = t ∨ x ∈ (_take_unlocked d L).2.1 := by
  intro d
  induction d with
  | nil => intro L h hx; cases hx
  | cons u rest ih =>
    intro L h hx
    by_cases hm : u.file_path ∈ L
    · simp only [_take_unlocked, if_pos hm] at h ⊢
      cases List.mem_cons.1 hx with
      | inl hxu => exact Or.inr (hxu ▸ List.mem_cons_self u _)
      | inr hxr =>
        cases ih L h hxr with
        | inl he => exact Or.inl he
        | inr hr => exact Or.inr (List.mem_cons_of_mem u hr)
    · simp only [_take_unlocked, if_neg hm, Option.some.injEq] at h ⊢
      cases List.mem_cons.1 hx with
      | inl hxu => exact Or.inl (hxu.trans h)
      | inr hxr => exact Or.inr hxr

/-- If `x` is deferred and the lock on its file stays released at every
round, `x` is processed within `deferred.length` rounds. -/
theorem deferred_rounds_mem (k : Nat) (d : List ReviewItem) (L : Finset String)
    (x : ReviewItem) (hlen : d.length ≤ k) (hx : x ∈ d)
    (hfree : x.file_path ∉ L) : x ∈ deferredRounds k d L := by
  induction k generalizing d with
  | zero =>
    rw [List.length_eq_zero.1 (Nat.le_zero.1 hlen)] at hx
    cases hx
  | succ k ih =>
    obtain ⟨t, ht⟩ := take_unlocked_some_of_mem x d L hx hfree
    have hunfold : deferredRounds (k + 1) d L
        = t :: deferredRounds k (_take_unlocked d L).2.1 L := by
      simp only [deferredRounds, ht]
    rw [hunfold]
    cases take_unlocked_mem_rem x t d L ht hx with
    | inl he => exact he ▸ List.mem_cons_self t _
    | inr hr =>
      have hlen' : (_take_unlocked d L).2.1.length ≤ k := by
        have := take_unlocked_some_length t d L ht
        omega
      exact List.mem_cons_of_mem t (ih _ hlen' hr)

/-! ### Claims C2, C5, C6, C10 -/

/-- C2: for every function, label and timeout: if the function is still
running when the timeout elapses, `_run_with_timeout` returns the
timeout sentinel without raising, the caller blocks no longer than the
deadline, and the late result is discarded (the return value does not
depend on what the function would eventually produce); if the function
completed within the deadline by raising `e`, the exception `e` is
re-raised; if it completed within the deadline with value `v`, `v` is
returned. In every case the caller's blocking time is at most the larger
of the deadline and the call's own duration, and in the timeout case at
most the deadline. -/
theorem claim_C2 (β : Type) (duration timeout : Nat) (res : FnResult β) :
    (timeout < duration →
      _run_with_timeout β duration res timeout = (timeout, Except.ok none) ∧
      (∀ res' : FnResult β,
        _run_with_timeout β duration res timeout
          = _run_with_timeout β duration res' timeout)) ∧
    (duration ≤ timeout → ∀ e : String, res = FnResult.raises e →
      (_run_with_timeout β duration res timeout).2 = Except.error e) ∧
    (duration ≤ timeout → ∀ v : Option β, res = FnResult.value v →
      (_run_with_timeout β duration res timeout).2 = Except.ok v) ∧
    (_run_with_timeout β duration res timeout).1 ≤ timeout := by
  by_cases h : timeout < duration
  · refine ⟨fun _ => ⟨?_, fun res' => ?_⟩, fun hle => absurd h (Nat.not_lt.2 hle),
      fun hle => absurd h (Nat.not_lt.2 hle), ?_⟩
    · simp [_run_with_timeout, h]
    · simp [_run_with_timeout, h]
    · simp [_run_with_timeout, h]
  · have hle : duration ≤ timeout := Nat.not_lt.1 h
    refine ⟨fun hlt => absurd hlt h, fun _ e he => ?_, fun _ v hv => ?_, ?_⟩
    · subst he; simp [_run_with_timeout, h]
    · subst hv; simp [_run_with_timeout, h]
    · simp [_run_with_timeout, h, hle]

/-- C2 witness: concrete instances — a call running 901 s against a
900 s deadline yields the sentinel after 900 s; a prompt raise is
re-raised; a prompt value is returned. -/
theorem claim_C2_witness :
    _run_with_timeout Nat 901 (FnResult.value (some 5)) 900 = (900, Except.ok none) ∧
    (_run_with_timeout Nat 10 (FnResult.raises "boom") 900).2 = Except.error "boom" ∧
    (_run_with_timeout Nat 10 (FnResult.value (some 7)) 900).2 = Except.ok (some 7) :=
  ⟨((claim_C2 Nat 901 900 (FnResult.value (some 5))).1 (by decide)).1,
   (claim_C2 Nat 10 900 (FnResult.raises "boom")).2.1 (by decide) "boom" rfl,
   (claim_C2 Nat 10 900 (FnResult.value (some 7))).2.2.1 (by decide) (some 7) rfl⟩

/-- C5: whatever the outcome of the review call — success, re-raised
exception, or timeout — the `finally` block leaves the lock set equal to
one `discard` of the task's file path, so the path is no longer locked
afterwards; and `discard` is idempotent: discarding an unlocked path is
a no-op. -/
theorem claim_C5 (t : ReviewItem) (locked : Finset String) (duration : Nat)
    (res : FnResult Unit) :
    (processReview t locked duration res).1 = fileDiscard locked t.file_path ∧
    t.file_path ∉ (processReview t locked duration res).1 ∧
    (∀ (s : Finset String) (p : String), p ∉ s → fileDiscard s p = s) := by
  refine ⟨?_, ?_, fun s p hp => Finset.erase_eq_of_not_mem hp⟩ <;>
    cases h : (_run_with_timeout Unit duration res TASK_TIMEOUT).2 <;>
      simp [processReview, h, fileDiscard]

/-- C5 witness: a failing review of a locked file releases the lock, and
discarding an absent path changes nothing. -/
theorem claim_C5_witness :
    (processReview ⟨1, "docs/a.md", "s", 0⟩ (insert "docs/a.md" ∅) 5
        (FnResult.raises "x")).1 = fileDiscard (insert "docs/a.md" ∅) "docs/a.md" ∧
    "docs/a.md" ∉ (processReview ⟨1, "docs/a.md", "s", 0⟩ (insert "docs/a.md" ∅) 5
        (FnResult.raises "x")).1 ∧
    fileDiscard ∅ "docs/b.md" = ∅ :=
  ⟨(claim_C5 ⟨1, "docs/a.md", "s", 0⟩ (insert "docs/a.md" ∅) 5 (FnResult.raises "x")).1,
   (claim_C5 ⟨1, "docs/a.md", "s", 0⟩ (insert "docs/a.md" ∅) 5 (FnResult.raises "x")).2.1,
   (claim_C5 ⟨1, "docs/a.md", "s", 0⟩ (insert "docs/a.md" ∅) 5 (FnResult.raises "x")).2.2
     ∅ "docs/b.md" (Finset.not_mem_empty _)⟩

/-- C6: one pass of the review worker loop exits exactly when the
done flag is set and both the shared queue and the worker's deferred
list are empty; in every other situation the worker keeps looping
(it continues or runs a review). -/
theorem claim_C6 (deferred : List ReviewItem) (locked : Finset String)
    (q : List ReviewItem) (done : Bool) :
    reviewStep deferred locked q done = ReviewStepResult.exitLoop ↔
      done = true ∧ q = [] ∧ deferred = [] := by
  cases htk : (_take_unlocked deferred locked).1 with
  | some t =>
    simp only [reviewStep, htk]
    constructor
    · intro h
      exact ReviewStepResult.noConfusion h
    · rintro ⟨-, -, hdef⟩
      subst hdef
      exact Option.noConfusion htk
  | none =>
    have hrem := take_unlocked_none_rem deferred locked htk
    cases q with
    | nil =>
      simp only [reviewStep, htk, hrem]
      by_cases hd : done && deferred.isEmpty
      · rw [if_pos hd]
        simp only [Bool.and_eq_true, List.isEmpty_iff] at hd
        simp [hd.1, hd.2]
      · rw [if_neg hd]
        simp only [Bool.and_eq_true, List.isEmpty_iff] at hd
        constructor
        · intro h
          exact ReviewStepResult.noConfusion h
        · rintro ⟨h1, -, h3⟩
          exact absurd ⟨h1, h3⟩ hd
    | cons u qrest =>
      simp only [reviewStep, htk, hrem]
      by_cases hm : u.file_path ∈ locked
      · rw [if_pos hm]
        constructor
        · intro h
          exact ReviewStepResult.noConfusion h
        · rintro ⟨-, h2, -⟩
          exact List.noConfusion h2
      · rw [if_neg hm]
        constructor
        · intro h
          exact ReviewStepResult.noConfusion h
        · rintro ⟨-, h2, -⟩
          exact List.noConfusion h2

/-- C10: a research call that times out and a research call that
promptly completes returning `None` yield the same value from
`_run_with_timeout` (the sentinel is `None` itself), the research worker
produces identical results in the two runs, and neither enqueues a
review item. -/
theorem claim_C10 (t : Task) (d1 d2 : Nat) (res : FnResult Nat) :
    TASK_TIMEOUT < d1 → d2 ≤ TASK_TIMEOUT →
    (_run_with_timeout Nat d1 res TASK_TIMEOUT).2 = Except.ok none ∧
    (_run_with_timeout Nat d2 (FnResult.value none) TASK_TIMEOUT).2 = Except.ok none ∧
    researchStep t d1 res = researchStep t d2 (FnResult.value none) ∧
    (researchStep t d1 res).1 = [] := by
  intro h1 h2
  have h2' : ¬ TASK_TIMEOUT < d2 := Nat.not_lt.2 h2
  refine ⟨?_, ?_, ?_, ?_⟩ <;>
    simp [_run_with_timeout, researchStep, h1, h2']

/-- C10 witness: a 901 s research call is indistinguishable, from the
worker's side, from an instant call producing no PR. -/
theorem claim_C10_witness :
    (_run_with_timeout Nat 901 (FnResult.value (some 7)) TASK_TIMEOUT).2
        = Except.ok none ∧
    (_run_with_timeout Nat 0 (FnResult.value none) TASK_TIMEOUT).2 = Except.ok none ∧
    researchStep ⟨"t", "f", "slug", 0⟩ 901 (FnResult.value (some 7))
        = researchStep ⟨"t", "f", "slug", 0⟩ 0 (FnResult.value none) ∧
    (researchStep ⟨"t", "f", "slug", 0⟩ 901 (FnResult.value (some 7))).1 = [] :=
  claim_C10 ⟨"t", "f", "slug", 0⟩ 901 0 (FnResult.value (some 7))
    (by decide) (Nat.zero_le _)

/-! ### Claims C7 and C4 -/

/-- Each research-worker iteration emits exactly one
`researcher_started` event, whatever the call's outcome. -/
theorem researchStep_started_count (t : Task) (d : Nat) (res : FnResult Nat) :
    ((researchStep t d res).2.filter isResearcherStarted).length = 1 := by
  cases h : (_run_with_timeout Nat d res TASK_TIMEOUT).2 with
  | ok v =>
    cases v <;> simp [researchStep, h, isResearcherStarted]
  | error e =>
    simp [researchStep, h, isResearcherStarted]

/-- C7: a research call that raises is caught and logged locally — the
worker's remaining behaviour equals its behaviour on the rest of the
queue, so the failure terminates nothing; the same holds for a timed-out
call; and over any task list followed by the sentinel, every single task
is processed (one `researcher_started` per task), failures included. -/
theorem claim_C7 (behav : Task → Nat × FnResult Nat) :
    (∀ (t : Task) (rest : List (Option Task)) (e : String),
        (behav t).2 = FnResult.raises e → (behav t).1 ≤ TASK_TIMEOUT →
        researchWorker behav (some t :: rest) =
          ((researchWorker behav rest).1,
           [Event.researcherStarted t.research_agent_id,
            Event.researcherDoneError t.research_agent_id e]
             ++ (researchWorker behav rest).2)) ∧
    (∀ (t : Task) (rest : List (Option Task)),
        TASK_TIMEOUT < (behav t).1 →
        researchWorker behav (some t :: rest) =
          ((researchWorker behav rest).1,
           [Event.researcherStarted t.research_agent_id,
            Event.researcherDone t.research_agent_id none]
             ++ (researchWorker behav rest).2)) ∧
    (∀ tasks : List Task,
        ((researchWorker behav (tasks.map some ++ [none])).2.filter
            isResearcherStarted).length = tasks.length) := by
  refine ⟨?_, ?_, ?_⟩
  · intro t rest e he hd
    have h2 : ¬ TASK_TIMEOUT < (behav t).1 := Nat.not_lt.2 hd
    simp [researchWorker, researchStep, _run_with_timeout, h2, he]
  · intro t rest hd
    simp [researchWorker, researchStep, _run_with_timeout, hd]
  · intro tasks
    induction tasks with
    | nil => simp [researchWorker]
    | cons t rest ih =>
      simp only [List.map_cons, List.cons_append, researchWorker,
        List.filter_append, List.length_append, List.append_eq, ih,
        researchStep_started_count, List.length_cons]
      omega

/-- C7 witness: with a research call that instantly raises, the worker
logs the failure and continues straight to the sentinel. -/
theorem claim_C7_witness :
    researchWorker (fun _ => (0, FnResult.raises "boom")) [some ⟨"t", "f", "slug", 0⟩, none] =
      ((researchWorker (fun _ => (0, FnResult.raises "boom")) [none]).1,
       [Event.researcherStarted "slug", Event.researcherDoneError "slug" "boom"]
         ++ (researchWorker (fun _ => (0, FnResult.raises "boom")) [none]).2) ∧
    ((researchWorker (fun _ => (0, FnResult.raises "boom"))
        ([⟨"t", "f", "slug", 0⟩].map some ++ [none])).2.filter
          isResearcherStarted).length = 1 :=
  ⟨(claim_C7 (fun _ => (0, FnResult.raises "boom"))).1 ⟨"t", "f", "slug", 0⟩ [none]
      "boom" rfl (Nat.zero_le _),
   (claim_C7 (fun _ => (0, FnResult.raises "boom"))).2.2 [⟨"t", "f", "slug", 0⟩]⟩

/-- C4: a freshly pulled item whose target file is locked is appended to
the worker's private deferred list (never dropped) and the loop
continues; the deferred list is consulted before the shared queue, so a
ready deferred item is taken with the queue untouched; and once the lock
on a deferred item's file is released (and stays released at each
check), the item is processed within `deferred.length` rounds. -/
theorem claim_C4 :
    (∀ (deferred : List ReviewItem) (locked : Finset String) (q : List ReviewItem)
        (done : Bool) (t : ReviewItem),
        (_take_unlocked deferred locked).1 = none → t.file_path ∈ locked →
        reviewStep deferred locked (t :: q) done
          = ReviewStepResult.continueLoop (deferred ++ [t]) locked q) ∧
    (∀ (deferred : List ReviewItem) (locked : Finset String) (q : List ReviewItem)
        (done : Bool) (t : ReviewItem),
        (_take_unlocked deferred locked).1 = some t →
        reviewStep deferred locked q done
          = ReviewStepResult.work t (_take_unlocked deferred locked).2.1
              (_take_unlocked deferred locked).2.2 q) ∧
    (∀ (x : ReviewItem) (deferred : List ReviewItem) (L : Finset String),
        x ∈ deferred → x.file_path ∉ L →
        x ∈ deferredRounds deferred.length deferred L) := by
  refine ⟨?_, ?_, ?_⟩
  · intro deferred locked q done t htk hm
    have hrem := take_unlocked_none_rem deferred locked htk
    simp [reviewStep, htk, hrem, hm]
  · intro deferred locked q done t htk
    simp [reviewStep, htk]
  · intro x deferred L hx hfree
    exact deferred_rounds_mem deferred.length deferred L x le_rfl hx hfree

/-- C4 witness: concrete instances of all three parts — a locked pull is
deferred, a ready deferred item is taken before the queue is touched,
and a deferred item is processed once its file is unlocked. -/
theorem claim_C4_witness :
    reviewStep [] (insert "docs/a.md" ∅) [⟨1, "docs/a.md", "s", 0⟩] false
      = ReviewStepResult.continueLoop [⟨1, "docs/a.md", "s", 0⟩]
          (insert "docs/a.md" ∅) [] ∧
    reviewStep [⟨2, "docs/b.md", "s2", 0⟩] ∅ [⟨1, "docs/a.md", "s", 0⟩] false
      = ReviewStepResult.work ⟨2, "docs/b.md", "s2", 0⟩
          (_take_unlocked [⟨2, "docs/b.md", "s2", 0⟩] ∅).2.1
          (_take_unlocked [⟨2, "docs/b.md", "s2", 0⟩] ∅).2.2
          [⟨1, "docs/a.md", "s", 0⟩] ∧
    (⟨2, "docs/b.md", "s2", 0⟩ : ReviewItem)
      ∈ deferredRounds 1 [⟨2, "docs/b.md", "s2", 0⟩] ∅ := by
  refine ⟨?_, ?_, ?_⟩
  · have h := claim_C4.1 [] (insert "docs/a.md" ∅) [] false ⟨1, "docs/a.md", "s", 0⟩
      rfl (by simp)
    simpa using h
  · exact claim_C4.2.1 [⟨2, "docs/b.md", "s2", 0⟩] ∅ [⟨1, "docs/a.md", "s", 0⟩] false
      ⟨2, "docs/b.md", "s2", 0⟩ rfl
  · have h := claim_C4.2.2 ⟨2, "docs/b.md", "s2", 0⟩ [⟨2, "docs/b.md", "s2", 0⟩] ∅
      (List.mem_singleton.2 rfl) (Finset.not_mem_empty _)
    simpa using h

/-! ### Claim C8 (credential gate) and C3 (resumable state) -/

/-- Truthiness: `os.environ.get(v)` is falsy exactly when the variable is unset or
set to the empty string. -/
theorem envTruthy_false_iff (env : String → Option String) (v : String) :
    envTruthy env v = false ↔ (env v = none ∨ env v = some "") := by
  cases h : env v with
  | none => simp [envTruthy, h]
  | some s => simp [envTruthy, h, bne_eq_false_iff_eq]

/-- C8 counterexample: in an environment where every required variable
is present (set) but `GEMINI_API_KEY_0` holds the empty string, the code
still raises the configuration error, refuting "when all required
variables are present, no configuration error is raised". -/
theorem claim_C8_counterexample :
    (REQUIRED_ENV_VARS.all (fun v => (envOneEmpty v).isSome)) = true ∧
    run_pipeline_gate envOneEmpty
      = Except.error "Missing env vars: GEMINI_API_KEY_0" :=
  ⟨by decide, rfl⟩

/-- C8 (amended): `run_pipeline` raises the configuration error, before
performing any external call, if and only if at least one required
credential variable is unset or set to the empty string; the error
message lists every such variable at once (the full filtered list is
interpolated); membership in the missing list is exactly
"required and unset-or-empty". -/
theorem claim_C8 (env : String → Option String) :
    (∀ v, v ∈ missingEnvVars env ↔
        v ∈ REQUIRED_ENV_VARS ∧ (env v = none ∨ env v = some "")) ∧
    (exceptIsError (run_pipeline_gate env) = true ↔
        ∃ v ∈ REQUIRED_ENV_VARS, env v = none ∨ env v = some "") ∧
    (missingEnvVars env ≠ [] →
        run_pipeline_gate env =
          Except.error ("Missing env vars: "
            ++ String.intercalate ", " (missingEnvVars env))) := by
  have hmem : ∀ v, v ∈ missingEnvVars env ↔
      v ∈ REQUIRED_ENV_VARS ∧ (env v = none ∨ env v = some "") := by
    intro v
    simp only [missingEnvVars, List.mem_filter, Bool.not_eq_true',
      envTruthy_false_iff]
  refine ⟨hmem, ?_, ?_⟩
  · by_cases he : (missingEnvVars env).isEmpty
    · have hnil : missingEnvVars env = [] := List.isEmpty_iff.1 he
      simp only [run_pipeline_gate, he, if_true, exceptIsError]
      constructor
      · intro h
        exact Bool.noConfusion h
      · rintro ⟨v, hv, hcond⟩
        have : v ∈ missingEnvVars env := (hmem v).2 ⟨hv, hcond⟩
        rw [hnil] at this
        cases this
    · have he' : (missingEnvVars env).isEmpty = false := Bool.eq_false_iff.2 he
      constructor
      · intro _
        have hne : missingEnvVars env ≠ [] := fun h => he (by simp [h])
        obtain ⟨v, hv⟩ := List.exists_mem_of_ne_nil _ hne
        obtain ⟨h1, h2⟩ := (hmem v).1 hv
        exact ⟨v, h1, h2⟩
      · intro _
        simp [run_pipeline_gate, he', exceptIsError]
  · intro hne
    have he : ¬ (missingEnvVars env).isEmpty := by
      simp [List.isEmpty_iff, hne]
    simp [run_pipeline_gate, he]

/-- C8 witness: with nothing set, the gate fails listing all six
variables. -/
theorem claim_C8_witness :
    run_pipeline_gate (fun _ => none) =
      Except.error ("Missing env vars: "
        ++ String.intercalate ", " (missingEnvVars (fun _ => none))) :=
  (claim_C8 (fun _ => none)).2.2 (by decide)

/-- C3: resuming a run whose durable record has task A fully completed,
task B research-succeeded/review-pending with a stored PR handle, and
task C pending, re-invokes research for neither A nor B, invokes review
for B with the stored handle, and runs both research and review for C;
more generally a completed stage is skipped (the tracker performs no
execution and returns the cached result), and a task whose research
stage is completed never triggers a research call. -/
theorem claim_C3 (prA prB prC : Nat) (freshA freshB : Option Nat) :
    (resumeTask "task-a" ⟨StageStatus.completed, some prA, StageStatus.completed⟩
        freshA).1 = [] ∧
    (resumeTask "task-b" ⟨StageStatus.completed, some prB, StageStatus.pending⟩
        freshB).1 = [ResumeAction.reviewCall "task-b" prB] ∧
    (resumeTask "task-c" ⟨StageStatus.pending, none, StageStatus.pending⟩
        (some prC)).1
      = [ResumeAction.researchCall "task-c", ResumeAction.reviewCall "task-c" prC] ∧
    (∀ (α : Type) (cached fresh : α),
        trackStage StageStatus.completed cached fresh = (cached, false)) ∧
    (∀ (id : String) (r : TaskRecord) (fresh : Option Nat),
        r.research = StageStatus.completed →
          ResumeAction.researchCall id ∉ (resumeTask id r fresh).1 ∧
          (r.review = StageStatus.completed → (resumeTask id r fresh).1 = [])) := by
  refine ⟨rfl, rfl, rfl, ?_, ?_⟩
  · intro α cached fresh
    simp [trackStage]
  · intro id r fresh hres
    constructor
    · by_cases hrev : r.review = StageStatus.completed
      · simp [resumeTask, trackStage, hres, hrev]
      · cases hp : r.pr <;> simp [resumeTask, trackStage, hres, hrev, hp]
    · intro hrev
      simp [resumeTask, trackStage, hres, hrev]

/-- C3 witness: concrete instances — the tracker skips a completed
stage, task B's resume performs no research call, task A's resume
performs nothing at all. -/
theorem claim_C3_witness :
    trackStage StageStatus.completed (some 3) (some 9) = (some 3, false) ∧
    ResumeAction.researchCall "task-b"
        ∉ (resumeTask "task-b"
            ⟨StageStatus.completed, some 7, StageStatus.pending⟩ none).1 ∧
    (resumeTask "task-a"
        ⟨StageStatus.completed, some 3, StageStatus.completed⟩ (some 9)).1 = [] :=
  ⟨(claim_C3 0 0 0 none none).2.2.2.1 (Option Nat) (some 3) (some 9),
   ((claim_C3 0 0 0 none none).2.2.2.2 "task-b"
      ⟨StageStatus.completed, some 7, StageStatus.pending⟩ none rfl).1,
   ((claim_C3 0 0 0 none none).2.2.2.2 "task-a"
      ⟨StageStatus.completed, some 3, StageStatus.completed⟩ (some 9) rfl).2 rfl⟩

/-! ### Claim C1 (file-lock mutual exclusion) -/

/-- The lock invariant holds initially. -/
theorem lock_inv_init (n : Nat) : LockInv n (initLockState n) := by
  constructor
  · intro p
    simp [initLockState]
  · intro p w w' hw
    simp [initLockState] at hw

/-- Every atomic transition preserves the lock invariant. -/
theorem lock_inv_step (n : Nat) (s t : LockState n) (hstep : LockStep n s t)
    (hinv : LockInv n s) : LockInv n t := by
  obtain ⟨hmem, huniq⟩ := hinv
  cases hstep with
  | acquire w p hw hp =>
    constructor
    · intro q
      dsimp only
      rw [Finset.mem_insert]
      constructor
      · rintro (rfl | hq)
        · exact ⟨w, by simp [Function.update_apply]⟩
        · obtain ⟨w0, hw0⟩ := (hmem q).1 hq
          have hne : w0 ≠ w := by
            intro h
            rw [h, hw] at hw0
            exact Option.noConfusion hw0
          exact ⟨w0, by simp [Function.update_apply, hne, hw0]⟩
      · rintro ⟨w0, hw0⟩
        by_cases h0 : w0 = w
        · subst h0
          rw [Function.update_same] at hw0
          exact Or.inl (Option.some.inj hw0).symm
        · rw [Function.update_apply, if_neg h0] at hw0
          exact Or.inr ((hmem q).2 ⟨w0, hw0⟩)
    · intro q w1 w2 h1 h2
      dsimp only at h1 h2
      by_cases e1 : w1 = w <;> by_cases e2 : w2 = w
      · rw [e1, e2]
      · subst e1
        rw [Function.update_same] at h1
        rw [Function.update_apply, if_neg e2] at h2
        have hqp : q = p := (Option.some.inj h1).symm
        subst hqp
        exact absurd ((hmem q).2 ⟨w2, h2⟩) hp
      · subst e2
        rw [Function.update_same] at h2
        rw [Function.update_apply, if_neg e1] at h1
        have hqp : q = p := (Option.some.inj h2).symm
        subst hqp
        exact absurd ((hmem q).2 ⟨w1, h1⟩) hp
      · rw [Function.update_apply, if_neg e1] at h1
        rw [Function.update_apply, if_neg e2] at h2
        exact huniq q w1 w2 h1 h2
  | deferFile w p hw hp =>
    exact ⟨hmem, huniq⟩
  | release w p hw =>
    constructor
    · intro q
      dsimp only
      rw [Finset.mem_erase]
      constructor
      · rintro ⟨hqp, hq⟩
        obtain ⟨w0, hw0⟩ := (hmem q).1 hq
        have hne : w0 ≠ w := by
          intro h
          rw [h, hw] at hw0
          exact hqp (Option.some.inj hw0).symm
        exact ⟨w0, by simp [Function.update_apply, hne, hw0]⟩
      · rintro ⟨w0, hw0⟩
        have hne : w0 ≠ w := by
          intro h
          rw [h, Function.update_same] at hw0
          exact Option.noConfusion hw0
        rw [Function.update_apply, if_neg hne] at hw0
        refine ⟨?_, (hmem q).2 ⟨w0, hw0⟩⟩
        intro hqp
        subst hqp
        exact hne (huniq q w0 w hw0 hw)
    · intro q w1 w2 h1 h2
      dsimp only at h1 h2
      have hne1 : w1 ≠ w := by
        intro h
        rw [h, Function.update_same] at h1
        exact Option.noConfusion h1
      have hne2 : w2 ≠ w := by
        intro h
        rw [h, Function.update_same] at h2
        exact Option.noConfusion h2
      rw [Function.update_apply, if_neg hne1] at h1
      rw [Function.update_apply, if_neg hne2] at h2
      exact huniq q w1 w2 h1 h2

/-- C1: in every state reachable by any interleaving of review workers'
atomic check-and-add acquisitions, deferrals and releases, a path is in
`files_under_review` iff some worker holds its lock, and no path is ever
held by two distinct workers simultaneously. -/
theorem claim_C1 (n : Nat) (s : LockState n) (h : LockReachable n s) :
    LockInv n s := by
  induction h with
  | init => exact lock_inv_init n
  | step s t _ hstep ih => exact lock_inv_step n s t hstep ih

/-- C1 witness: the invariant at a concrete reachable two-worker state
in which worker 0 has acquired the lock on `docs/a.md`. -/
theorem claim_C1_witness :
    LockInv 2 ⟨insert "docs/a.md" ∅,
      Function.update (fun _ => none) (0 : Fin 2) (some "docs/a.md")⟩ :=
  claim_C1 2 _ (LockReachable.step _ _ LockReachable.init
    (LockStep.acquire (initLockState 2) 0 "docs/a.md" rfl (Finset.not_mem_empty _)))

/-! ### Claim C9 (topic slugs) -/

/-- The head of a `dropWhile` result does not satisfy the predicate. -/
theorem head?_dropWhile_false (p : α → Bool) (l : List α) (x : α)
    (h : (l.dropWhile p).head? = some x) : p x = false := by
  have hm := List.head?_dropWhile_not p l
  rw [h] at hm
  exact hm

/-- Every character `squashRuns` emits is alphanumeric or the
separator. -/
theorem squashRuns_mem (c : Char) : ∀ (l : List Char) (b : Bool),
    c ∈ squashRuns b l → isSlugAlnum c = true ∨ c = '-' := by
  intro l
  induction l with
  | nil => intro b hc; cases hc
  | cons d rest ih =>
    intro b hc
    by_cases hd : isSlugAlnum d
    · simp only [squashRuns, if_pos hd] at hc
      cases List.mem_cons.1 hc with
      | inl h => exact Or.inl (h ▸ hd)
      | inr h => exact ih false h
    · cases b with
      | true =>
        simp only [squashRuns, if_neg hd, if_true] at hc
        exact ih true hc
      | false =>
        simp only [squashRuns, if_neg hd, if_false] at hc
        cases List.mem_cons.1 hc with
        | inl h => exact Or.inr h
        | inr h => exact ih true h

/-- Inside a run already replaced, the next emitted character is
alphanumeric (never a separator). -/
theorem squashRuns_head_alnum (c : Char) : ∀ (l : List Char),
    (squashRuns true l).head? = some c → isSlugAlnum c = true := by
  intro l
  induction l with
  | nil => intro h; exact Option.noConfusion h
  | cons d rest ih =>
    intro h
    by_cases hd : isSlugAlnum d
    · simp only [squashRuns, if_pos hd, List.head?_cons] at h
      exact (Option.some.inj h) ▸ hd
    · simp only [squashRuns, if_neg hd, if_true] at h
      exact ih h

/-- The function `squashRuns` never emits two adjacent separators: each run is
replaced by a single one. -/
theorem squashRuns_chain : ∀ (l : List Char) (b : Bool),
    List.Chain' (fun a d => ¬(a = '-' ∧ d = '-')) (squashRuns b l) := by
  intro l
  induction l with
  | nil => intro b; simp [squashRuns]
  | cons d rest ih =>
    intro b
    by_cases hd : isSlugAlnum d
    · have hne : d ≠ '-' := by
        intro h
        rw [h] at hd
        exact absurd hd (by decide)
      simp only [squashRuns, if_pos hd]
      rw [List.chain'_cons']
      refine ⟨?_, ih false⟩
      rintro y - ⟨h1, -⟩
      exact hne h1
    · cases b with
      | true =>
        simp only [squashRuns, if_neg hd, if_true]
        exact ih true
      | false =>
        have hrw : squashRuns false (d :: rest) = '-' :: squashRuns true rest := by
          simp [squashRuns, hd]
        rw [hrw, List.chain'_cons']
        refine ⟨?_, ih true⟩
        intro y hy
        have halnum := squashRuns_head_alnum y rest (Option.mem_def.1 hy)
        rintro ⟨-, h2⟩
        rw [h2] at halnum
        exact absurd halnum (by decide)

/-- The stripped list is a contiguous middle segment of the original
list. -/
theorem stripChar_within (c : Char) (l : List Char) : stripChar c l <:+: l := by
  obtain ⟨s, hs⟩ := List.dropWhile_suffix (l := l) (fun d => d == c)
  obtain ⟨u, hu⟩ :=
    List.dropWhile_suffix (l := (l.dropWhile (fun d => d == c)).reverse)
      (fun d => d == c)
  refine ⟨s, u.reverse, ?_⟩
  have hm : l.dropWhile (fun d => d == c) = stripChar c l ++ u.reverse := by
    have hrev := congrArg List.reverse hu
    simpa [List.reverse_append, stripChar] using hrev.symm
  rw [List.append_assoc, ← hm, hs]

/-- After stripping, neither end of the list is the stripped
character. -/
theorem stripChar_ends_ne (c : Char) (l : List Char) :
    (stripChar c l).head? ≠ some c ∧ (stripChar c l).getLast? ≠ some c := by
  constructor
  · simp only [stripChar, List.head?_reverse]
    intro h
    obtain ⟨s, hs⟩ :=
      List.dropWhile_suffix (l := (l.dropWhile (fun d => d == c)).reverse)
        (fun d => d == c)
    have hgl : ((l.dropWhile (fun d => d == c)).reverse).getLast? = some c := by
      rw [← hs, List.getLast?_append, h]
      rfl
    rw [List.getLast?_reverse] at hgl
    have hfalse := head?_dropWhile_false (fun d => d == c) l c hgl
    simp at hfalse
  · simp only [stripChar, List.getLast?_reverse]
    intro h
    have hfalse := head?_dropWhile_false (fun d => d == c) _ c h
    simp at hfalse

/-- C9 counterexample: the topics `"Queen Bee"` and `"queen_bee"`
produce the same slug, and `run_pipeline` assigns both tasks the very
same id — ids are not unique within the run and no disambiguation
occurs, refuting the uniqueness half of the claim. -/
theorem claim_C9_counterexample :
    assignAgentIds [some "Queen Bee", some "queen_bee"]
        = ["queen-bee", "queen-bee"] ∧
    ¬ (assignAgentIds [some "Queen Bee", some "queen_bee"]).Nodup :=
  ⟨rfl, by decide⟩

/-- C9 (amended): each task id is derived from its topic by the slug
rule — every character of the result is a lowercase alphanumeric or the
separator `'-'`, the result neither starts nor ends with the separator,
and separators never appear adjacently (runs are collapsed to one) — but
colliding topics are NOT disambiguated: two tasks whose topics produce
the same slug receive identical ids. -/
theorem claim_C9 :
    (∀ (topic : String) (c : Char), c ∈ (_topic_slug topic).data →
        isSlugAlnum c = true ∨ c = '-') ∧
    (∀ topic : String, (_topic_slug topic).data.head? ≠ some '-' ∧
        (_topic_slug topic).data.getLast? ≠ some '-') ∧
    (∀ topic : String,
        List.Chain' (fun a d => ¬(a = '-' ∧ d = '-')) (_topic_slug topic).data) ∧
    (∀ t1 t2 : String, _topic_slug t1 = _topic_slug t2 →
        assignAgentIds [some t1, some t2] = [_topic_slug t1, _topic_slug t1]) := by
  refine ⟨?_, ?_, ?_, ?_⟩
  · intro topic c hc
    have hmem : c ∈ squashRuns false (topic.data.map Char.toLower) :=
      (stripChar_within '-' _).subset hc
    exact squashRuns_mem c _ false hmem
  · intro topic
    exact stripChar_ends_ne '-' (squashRuns false (topic.data.map Char.toLower))
  · intro topic
    obtain ⟨s, t, hst⟩ :=
      stripChar_within '-' (squashRuns false (topic.data.map Char.toLower))
    have hchain := squashRuns_chain (topic.data.map Char.toLower) false
    rw [← hst] at hchain
    exact List.Chain'.right_of_append (List.Chain'.left_of_append hchain)
  · intro t1 t2 h
    simp only [assignAgentIds, List.map_cons, List.map_nil, Option.getD_some, ← h]

/-- C9 witness: the slug of `"Queen Bee"` is made of slug characters,
and the colliding topics `"Queen Bee"` and `"queen_bee"` get equal
ids. -/
theorem claim_C9_witness :
    (isSlugAlnum 'q' = true ∨ 'q' = '-') ∧
    assignAgentIds [some "Queen Bee", some "queen_bee"]
      = [_topic_slug "Queen Bee", _topic_slug "Queen Bee"] :=
  ⟨claim_C9.1 "Queen Bee" 'q' (by decide),
   claim_C9.2.2.2 "Queen Bee" "queen_bee" (by decide)⟩

end BeeWork
